import Mathlib

/-!
Verification of the astronomical calculation core of the MoonPhases
repository (`src/core/ta.ts`).

The embedding models JavaScript numbers by exact rationals (`ℚ`): every
numeric constant appearing in the source (`29.53058868`, `2451549.5`,
`30.6001`, `0.02`, …) is an exact decimal, so its `ℚ` reading is the
mathematical value the source manipulates.  A JavaScript `Date` is modelled
by its millisecond timestamp (`ℤ`); component extraction
(`getFullYear`/`getMonth`/…) is modelled by the standard proleptic-Gregorian
civil-from-days algorithm, which is what ECMAScript prescribes (we fix the
runtime's local time zone to UTC, so local components and UTC components
coincide).  Exceptions (`throw new Error(...)`) are modelled by `Except`.
-/

namespace MoonPhases

/-- The two error kinds of the core: `Invalid ... provided` / `Invalid date
parameters` / `Phase must be between 0 and 1` / `Days must be a valid number`
are all `invalidInput`; `Could not find next ... within search range` is
`phaseNotFound`. -/
inductive Err where
  | invalidInput : Err
  | phaseNotFound : Err
deriving DecidableEq, Repr

/-- Calendar components of a JavaScript `Date`, as read by `getFullYear()`,
`getMonth() + 1`, `getDate()`, `getHours()`, `getMinutes()`, `getSeconds()`. -/
structure DateTime where
  year : ℤ
  month : ℤ
  day : ℤ
  hour : ℤ
  minute : ℤ
  second : ℤ
deriving DecidableEq, Repr

/-- The synodic month constant `29.53058868` of `ta.moonPhase`. -/
def synodicQ : ℚ := 29.53058868

/-- The new-moon reference epoch `2451549.5` of `ta.moonPhase`. -/
def newMoonJD : ℚ := 2451549.5

/-- JavaScript number-to-integer truncation (toward zero), the rounding used
by the `%` remainder operator. -/
def jsTrunc (x : ℚ) : ℤ :=
  if 0 ≤ x then ⌊x⌋ else ⌈x⌉

/-- The JavaScript `%` (remainder) operator on numbers: `a - b * trunc (a / b)`,
whose result takes the sign of the dividend. -/
def jsMod (a b : ℚ) : ℚ :=
  a - b * jsTrunc (a / b)

/-- The arithmetic core of `ta.julianDay` (lines 57-64 of `ta.ts`), after the
validation guard has passed.  `Math.floor(year / 100)` is floor division,
which on `ℤ` is `/` (Euclidean division by a positive divisor). -/
def jdCore (year month day : ℤ) (hour minute second : ℚ) : ℚ :=
  let y := if month ≤ 2 then year - 1 else year
  let m := if month ≤ 2 then month + 12 else month
  let a := y / 100
  let b := 2 - a + a / 4
  let dayFraction := (hour + minute / 60 + second / 3600) / 24
  (⌊(365.25 : ℚ) * ((y : ℚ) + 4716)⌋ : ℚ) + (⌊(30.6001 : ℚ) * ((m : ℚ) + 1)⌋ : ℚ)
    + (day : ℚ) + dayFraction + (b : ℚ) - 1524.5

/-- `ta.julianDay` (lines 53-65): the validation guard
`year < -4712 || month < 1 || month > 12 || day < 1 || day > 31`
followed by the Julian Day computation. -/
def julianDay (year month day : ℤ) (hour minute second : ℚ) : Except Err ℚ :=
  if year < -4712 ∨ month < 1 ∨ month > 12 ∨ day < 1 ∨ day > 31 then
    .error .invalidInput
  else
    .ok (jdCore year month day hour minute second)

/-- Lines 35-38 of `ta.moonPhase`: phase fraction from a Julian Day. -/
def phaseOfJD (jd : ℚ) : ℚ :=
  let phase := jsMod (jd - newMoonJD) synodicQ / synodicQ
  if phase < 0 then phase + 1 else phase

/-- `ta.moonPhase` (lines 26-39) on the calendar components of the date. -/
def moonPhase (dt : DateTime) : Except Err ℚ :=
  match julianDay dt.year dt.month dt.day (dt.hour : ℚ) (dt.minute : ℚ) (dt.second : ℚ) with
  | .error e => .error e
  | .ok jd => .ok (phaseOfJD jd)

/-- Day index of a millisecond timestamp (floor division, as performed by the
ECMAScript `Date` specification). -/
def msDays (t : ℤ) : ℤ := t / 86400000

/-- Milliseconds elapsed within the day of timestamp `t` (always nonnegative). -/
def msOfDay (t : ℤ) : ℤ := t % 86400000

/-- Civil-from-days (proleptic Gregorian calendar, Howard Hinnant's
algorithm, which is the function computed by ECMAScript's
`YearFromTime`/`MonthFromTime`/`DateFromTime`): shifted day count. -/
def civilZ (t : ℤ) : ℤ := msDays t + 719468

/-- 400-year era of the day count. -/
def civilEra (t : ℤ) : ℤ := civilZ t / 146097

/-- Day of era, in `[0, 146096]`. -/
def civilDoe (t : ℤ) : ℤ := civilZ t - civilEra t * 146097

/-- Year of era, in `[0, 399]`. -/
def civilYoe (t : ℤ) : ℤ :=
  (civilDoe t - civilDoe t / 1460 + civilDoe t / 36524 - civilDoe t / 146096) / 365

/-- Day of year (March-based), in `[0, 365]`. -/
def civilDoy (t : ℤ) : ℤ :=
  civilDoe t - (365 * civilYoe t + civilYoe t / 4 - civilYoe t / 100)

/-- March-based month index, in `[0, 11]`. -/
def civilMp (t : ℤ) : ℤ := (5 * civilDoy t + 2) / 153

/-- Day of month, in `[1, 31]` — the value of `Date.prototype.getDate()`. -/
def civilDay (t : ℤ) : ℤ := civilDoy t - (153 * civilMp t + 2) / 5 + 1

/-- Calendar month in `[1, 12]` — the value of `getMonth() + 1`. -/
def civilMonth (t : ℤ) : ℤ := civilMp t + (if civilMp t < 10 then 3 else -9)

/-- Calendar year — the value of `getFullYear()`. -/
def civilYear (t : ℤ) : ℤ :=
  (civilYoe t + civilEra t * 400) + (if civilMonth t ≤ 2 then 1 else 0)

/-- Component extraction of a JavaScript `Date` from its millisecond
timestamp (UTC / fixed-offset time zone). -/
def msToDateTime (t : ℤ) : DateTime :=
  ⟨civilYear t, civilMonth t, civilDay t,
    msOfDay t / 3600000, msOfDay t % 3600000 / 60000, msOfDay t % 60000 / 1000⟩

/-- `ta.moonPhase` as a function of the `Date`'s millisecond timestamp. -/
def moonPhaseAt (t : ℤ) : Except Err ℚ := moonPhase (msToDateTime t)

/-- Wrapped circular phase distance (lines 246-249 and 280-283 of `ta.ts`):
`diff = |phase - target|; if (diff > 0.5) diff = 1 - diff`. -/
def wdist (p target : ℚ) : ℚ :=
  let d := |p - target|
  if d > 0.5 then 1 - d else d

/-- The values taken by an integer `for` loop counter: `count` values
starting at `start`, step `step`. -/
def stepList (start step : ℤ) : ℕ → List ℤ
  | 0 => []
  | n + 1 => start :: stepList (start + step) step n

/-- Values of `hours` in the coarse scan `for (hours = 0; hours < 30.53 * 24;
hours += 2)`: `0, 2, …, 732` (the bound is `732.72`). -/
def hourList : List ℤ := stepList 0 2 367

/-- Values of `minutes` in the refinement scan `for (minutes = -720;
minutes <= 720; minutes += 30)`. -/
def minutesList : List ℤ := stepList (-720) 30 49

/-- The refinement loop of `ta.refinePhaseDate` (lines 277-288), carrying
`(bestDate, bestDiff)`; a thrown `moonPhase` error propagates. -/
def refineLoop (a : ℤ) (target : ℚ) : List ℤ → ℤ × ℚ → Except Err ℤ
  | [], acc => .ok acc.1
  | m :: ms, acc =>
    match moonPhaseAt (a + m * 60000) with
    | .error e => .error e
    | .ok p =>
      refineLoop a target ms
        (if wdist p target < acc.2 then (a + m * 60000, wdist p target) else acc)

/-- `ta.refinePhaseDate` (lines 271-290): initial best is the approximate
date itself, then the ±720-minute scan in 30-minute steps. -/
def refinePhaseDate (a : ℤ) (target : ℚ) : Except Err ℤ :=
  match moonPhaseAt a with
  | .error e => .error e
  | .ok p0 => refineLoop a target minutesList (a, wdist p0 target)

/-- The coarse scan loop of `ta.findNextPhase` (lines 243-261), carrying
`(bestDate, bestDiff)`.  On each iteration the phase is sampled, the best is
updated, and `bestDiff < 0.02` triggers early refinement; after the loop,
`bestDiff < 0.1` still refines, otherwise the search fails. -/
def findLoop (target : ℚ) (start : ℤ) : List ℤ → ℤ × ℚ → Except Err ℤ
  | [], acc => if acc.2 < 0.1 then refinePhaseDate acc.1 target else .error .phaseNotFound
  | h :: hs, acc =>
    match moonPhaseAt (start + h * 3600000) with
    | .error e => .error e
    | .ok p =>
      let acc' := if wdist p target < acc.2 then (start + h * 3600000, wdist p target) else acc
      if acc'.2 < 0.02 then refinePhaseDate acc'.1 target
      else findLoop target start hs acc'

/-- `ta.findNextPhase` (lines 236-262): start one hour after `fromDate`
(`date.setHours(date.getHours() + 1)`), initial best diff `1`. -/
def findNextPhase (fromTime : ℤ) (target : ℚ) : Except Err ℤ :=
  findLoop target (fromTime + 3600000) hourList (fromTime + 3600000, 1)

/-- `ta.nextNewMoon` (lines 126-129); a `ℤ` timestamp is always a valid
`Date`, so `validateDate` never throws here. -/
def nextNewMoon (fromTime : ℤ) : Except Err ℤ := findNextPhase fromTime 0

/-- `ta.nextFullMoon` (lines 138-141). -/
def nextFullMoon (fromTime : ℤ) : Except Err ℤ := findNextPhase fromTime 0.5

/-- One step of the coarse scan with the early-exit control removed: the pure
`(bestDate, bestDiff)` update of lines 244-253.  (An erroring sample leaves
the accumulator unchanged; the hypotheses under which this function is used
rule that case out.) -/
def pureStep (target : ℚ) (start : ℤ) (acc : ℤ × ℚ) (h : ℤ) : ℤ × ℚ :=
  match moonPhaseAt (start + h * 3600000) with
  | .error _ => acc
  | .ok p => if wdist p target < acc.2 then (start + h * 3600000, wdist p target) else acc

/-- The `(bestDate, bestDiff)` state after the first `k` iterations of the
coarse scan of `findNextPhase fromTime target`, ignoring early exit. -/
def coarsePrefix (fromTime : ℤ) (target : ℚ) (k : ℕ) : ℤ × ℚ :=
  (hourList.take k).foldl (pureStep target (fromTime + 3600000))
    (fromTime + 3600000, 1)

/-- The final `(bestDate, bestDiff)` state of the full coarse scan of
`findNextPhase fromTime target`, ignoring early exit. -/
def coarseBest (fromTime : ℤ) (target : ℚ) : ℤ × ℚ :=
  hourList.foldl (pureStep target (fromTime + 3600000)) (fromTime + 3600000, 1)

/-- A phase event of `ta.findPhaseEvents`: `{ date, type, phase }`. -/
structure PhaseEvent where
  time : ℤ
  type : String
  phase : ℚ
deriving DecidableEq, Repr

/-- The event classification of lines 209-218 of `ta.findPhaseEvents`. -/
def classify (prevPhase phase nextPhase : ℚ) : String :=
  if phase < 0.05 ∧ (prevPhase > 0.95 ∨ nextPhase > 0.05) then "new-moon"
  else if |phase - 0.5| < 0.05 ∧ (|prevPhase - 0.5| > 0.05 ∨ |nextPhase - 0.5| > 0.05) then
    "full-moon"
  else if |phase - 0.25| < 0.05 ∧ (|prevPhase - 0.25| > 0.05 ∨ |nextPhase - 0.25| > 0.05) then
    "quarter"
  else if |phase - 0.75| < 0.05 ∧ (|prevPhase - 0.75| > 0.05 ∨ |nextPhase - 0.75| > 0.05) then
    "quarter"
  else ""

/-- The day-by-day scan of `ta.findPhaseEvents` (lines 201-223) over the
listed day indices `k` (search time `s0 + k` days): sample the phase at the
day, the day before and the day after, classify, and push the event when the
classification is nonempty and the day lies in `[startT, endT]`. -/
def eventsLoop (startT endT s0 : ℤ) : List ℕ → List PhaseEvent → Except Err (List PhaseEvent)
  | [], evs => .ok evs
  | k :: ks, evs =>
    match moonPhaseAt (s0 + (k : ℤ) * 86400000) with
    | .error e => .error e
    | .ok phase =>
      match moonPhaseAt (s0 + (k : ℤ) * 86400000 - 86400000) with
      | .error e => .error e
      | .ok prevPhase =>
        match moonPhaseAt (s0 + (k : ℤ) * 86400000 + 86400000) with
        | .error e => .error e
        | .ok nextPhase =>
          let ty := classify prevPhase phase nextPhase
          eventsLoop startT endT s0 ks
            (if ty ≠ "" ∧ startT ≤ s0 + (k : ℤ) * 86400000 ∧ s0 + (k : ℤ) * 86400000 ≤ endT
              then evs ++ [⟨s0 + (k : ℤ) * 86400000, ty, phase⟩] else evs)

/-- `ta.findPhaseEvents` (lines 194-225): scan from `startDate - 2` days
while the search time is `≤ endDate + 2` days, stepping one day at a time.
The number of iterations of the `while` loop is
`max 0 ((endTime - s0) / 86400000 + 1)`. -/
def findPhaseEvents (startT endT : ℤ) : Except Err (List PhaseEvent) :=
  let s0 := startT - 2 * 86400000
  let endTime := endT + 2 * 86400000
  eventsLoop startT endT s0 (List.range ((endTime - s0) / 86400000 + 1).toNat) []

/-- `ta.phaseName` (lines 74-103): range guard then the nine-way band
classification by `phase < 0.0625`, `phase < 0.1875`, …. -/
def phaseName (phase : ℚ) : Except Err String :=
  if phase < 0 ∨ phase > 1 then .error .invalidInput
  else if phase < 0.0625 then .ok "New Moon"
  else if phase < 0.1875 then .ok "Waxing Crescent"
  else if phase < 0.3125 then .ok "First Quarter"
  else if phase < 0.4375 then .ok "Waxing Gibbous"
  else if phase < 0.5625 then .ok "Full Moon"
  else if phase < 0.6875 then .ok "Waning Gibbous"
  else if phase < 0.8125 then .ok "Last Quarter"
  else if phase < 0.9375 then .ok "Waning Crescent"
  else .ok "New Moon"

/-- The spec's band table for `phaseName`, transcribed interval by interval
from §4.1: `[0,.0625) New Moon · [.0625,.1875) Waxing Crescent · … ·
[.9375,1] New Moon`, failing outside `[0,1]`.  The final `else` is
unreachable (the bands cover `[0,1]`); making it an error lets the equality
theorem also certify coverage. -/
def phaseNameSpec (phase : ℚ) : Except Err String :=
  if phase < 0 ∨ phase > 1 then .error .invalidInput
  else if 0 ≤ phase ∧ phase < 0.0625 then .ok "New Moon"
  else if 0.0625 ≤ phase ∧ phase < 0.1875 then .ok "Waxing Crescent"
  else if 0.1875 ≤ phase ∧ phase < 0.3125 then .ok "First Quarter"
  else if 0.3125 ≤ phase ∧ phase < 0.4375 then .ok "Waxing Gibbous"
  else if 0.4375 ≤ phase ∧ phase < 0.5625 then .ok "Full Moon"
  else if 0.5625 ≤ phase ∧ phase < 0.6875 then .ok "Waning Gibbous"
  else if 0.6875 ≤ phase ∧ phase < 0.8125 then .ok "Last Quarter"
  else if 0.8125 ≤ phase ∧ phase < 0.9375 then .ok "Waning Crescent"
  else if 0.9375 ≤ phase ∧ phase ≤ 1 then .ok "New Moon"
  else .error .invalidInput

/-- `ta.illumination` (lines 112-117): `|cos(phase · 2π)| · 100` after the
same range guard as `phaseName`. -/
noncomputable def illumination (phase : ℚ) : Except Err ℝ :=
  if phase < 0 ∨ phase > 1 then .error .invalidInput
  else .ok (|Real.cos ((phase : ℝ) * 2 * Real.pi)| * 100)

/-- The validation predicate of `julianDay`, as a proposition: the claim's
"passes validation". -/
def ValidInstant (dt : DateTime) : Prop :=
  1 ≤ dt.month ∧ dt.month ≤ 12 ∧ 1 ≤ dt.day ∧ dt.day ≤ 31 ∧ -4712 ≤ dt.year

instance (dt : DateTime) : Decidable (ValidInstant dt) := by
  unfold ValidInstant; infer_instance

/-- The spec's Julian Day formula, transcribed from §4.1's words: the
month ≤ 2 adjustment, `a = floor(year/100)`, `b = 2 - a + floor(a/4)`,
`dayFraction`, and the result formula, with every `floor` read as the
mathematical floor of the exact rational. -/
def specJulianDay (year month day : ℤ) (hour minute second : ℚ) : ℚ :=
  let y : ℚ := if month ≤ 2 then (year : ℚ) - 1 else (year : ℚ)
  let m : ℚ := if month ≤ 2 then (month : ℚ) + 12 else (month : ℚ)
  let a : ℚ := ⌊y / 100⌋
  let b : ℚ := 2 - a + (⌊a / 4⌋ : ℤ)
  let dayFraction := (hour + minute / 60 + second / 3600) / 24
  (⌊(365.25 : ℚ) * (y + 4716)⌋ : ℚ) + (⌊(30.6001 : ℚ) * (m + 1)⌋ : ℚ)
    + (day : ℚ) + dayFraction + b - 1524.5

/-- The spec's phase formula, transcribed from §4.1's words:
`phase = ((jd − epoch) mod synodicMonth) / synodicMonth; if the mod result is
negative, add 1`. -/
def specMoonPhase (jd : ℚ) : ℚ :=
  let m := jsMod (jd - 2451549.5) 29.53058868
  if m < 0 then m / 29.53058868 + 1 else m / 29.53058868

/-! ### IEEE-754 special values

The validation guard of `julianDay` and the guard of `formatRelativeTime`
are sensitive to NaN and the infinities, which `ℚ` cannot carry.  `JSNum`
models a JavaScript number as either a finite value (an exact rational) or
one of the three special values, with the IEEE comparison and arithmetic
semantics the source relies on. -/
inductive JSNum where
  | num (q : ℚ) : JSNum
  | nan : JSNum
  | inf : JSNum
  | ninf : JSNum
deriving DecidableEq, Repr

/-- IEEE `<`: every comparison involving NaN is false. -/
def jsLt : JSNum → JSNum → Bool
  | .num a, .num b => a < b
  | .nan, _ => false
  | _, .nan => false
  | .inf, _ => false
  | .num _, .inf => true
  | .ninf, .inf => true
  | .ninf, .num _ => true
  | .num _, .ninf => false
  | .ninf, .ninf => false

/-- IEEE `<=`: every comparison involving NaN is false. -/
def jsLe : JSNum → JSNum → Bool
  | .num a, .num b => a ≤ b
  | .nan, _ => false
  | _, .nan => false
  | .inf, .inf => true
  | .inf, _ => false
  | .num _, .inf => true
  | .ninf, _ => true
  | .num _, .ninf => false

def jsAdd : JSNum → JSNum → JSNum
  | .num a, .num b => .num (a + b)
  | .nan, _ => .nan
  | _, .nan => .nan
  | .inf, .ninf => .nan
  | .ninf, .inf => .nan
  | .inf, _ => .inf
  | _, .inf => .inf
  | .ninf, _ => .ninf
  | _, .ninf => .ninf

def jsSub : JSNum → JSNum → JSNum
  | .num a, .num b => .num (a - b)
  | .nan, _ => .nan
  | _, .nan => .nan
  | .inf, .inf => .nan
  | .ninf, .ninf => .nan
  | .inf, _ => .inf
  | .ninf, _ => .ninf
  | _, .inf => .ninf
  | _, .ninf => .inf

def jsMul : JSNum → JSNum → JSNum
  | .num a, .num b => .num (a * b)
  | .nan, _ => .nan
  | _, .nan => .nan
  | .inf, .inf => .inf
  | .inf, .ninf => .ninf
  | .ninf, .inf => .ninf
  | .ninf, .ninf => .inf
  | .inf, .num b => if b = 0 then .nan else if 0 < b then .inf else .ninf
  | .num a, .inf => if a = 0 then .nan else if 0 < a then .inf else .ninf
  | .ninf, .num b => if b = 0 then .nan else if 0 < b then .ninf else .inf
  | .num a, .ninf => if a = 0 then .nan else if 0 < a then .ninf else .inf

def jsDiv : JSNum → JSNum → JSNum
  | .num a, .num b =>
    if b = 0 then (if a = 0 then .nan else if 0 < a then .inf else .ninf)
    else .num (a / b)
  | .nan, _ => .nan
  | _, .nan => .nan
  | .inf, .inf => .nan
  | .inf, .ninf => .nan
  | .ninf, .inf => .nan
  | .ninf, .ninf => .nan
  | .inf, .num b => if 0 ≤ b then .inf else .ninf
  | .ninf, .num b => if 0 ≤ b then .ninf else .inf
  | .num _, .inf => .num 0
  | .num _, .ninf => .num 0

/-- `Math.floor` on IEEE doubles: the special values are fixed points. -/
def jsFloor : JSNum → JSNum
  | .num q => .num ⌊q⌋
  | .nan => .nan
  | .inf => .inf
  | .ninf => .ninf

/-- `Math.abs` on IEEE doubles. -/
def jsAbs : JSNum → JSNum
  | .num q => .num |q|
  | .nan => .nan
  | .inf => .inf
  | .ninf => .inf

/-- JavaScript number-to-string conversion, on the values the claims
exercise (integers and the special values). -/
def jsNumToString : JSNum → String
  | .num q => if q.den = 1 then toString q.num else toString q
  | .nan => "NaN"
  | .inf => "Infinity"
  | .ninf => "-Infinity"

/-- `ta.julianDay` (lines 53-65) transcribed over `JSNum`, keeping the IEEE
behaviour of every comparison and arithmetic operation.  The validation
guard is evaluated before any computation, exactly as in the source. -/
def julianDayJS (year month day hour minute second : JSNum) : Except Err JSNum :=
  if jsLt year (.num (-4712)) || jsLt month (.num 1) || jsLt (.num 12) month ||
      jsLt day (.num 1) || jsLt (.num 31) day then
    .error .invalidInput
  else
    let y := if jsLe month (.num 2) then jsSub year (.num 1) else year
    let m := if jsLe month (.num 2) then jsAdd month (.num 12) else month
    let a := jsFloor (jsDiv y (.num 100))
    let b := jsAdd (jsSub (.num 2) a) (jsFloor (jsDiv a (.num 4)))
    let dayFraction :=
      jsDiv (jsAdd (jsAdd hour (jsDiv minute (.num 60))) (jsDiv second (.num 3600))) (.num 24)
    .ok (jsSub
      (jsAdd
        (jsAdd
          (jsAdd
            (jsAdd (jsFloor (jsMul (.num 365.25) (jsAdd y (.num 4716))))
              (jsFloor (jsMul (.num 30.6001) (jsAdd m (.num 1)))))
            day)
          dayFraction)
        b)
      (.num 1524.5))

/-- `ta.formatRelativeTime` (lines 167-184): for a number-typed argument the
guard `typeof days !== 'number' || isNaN(days)` reduces to the NaN check;
then the `0`/`1`/`-1` strict equalities and the sign test. -/
def formatRelativeTime (days : JSNum) : Except Err String :=
  if days = .nan then .error .invalidInput
  else if days = .num 0 then .ok "Today"
  else if days = .num 1 then .ok "Tomorrow"
  else if days = .num (-1) then .ok "Yesterday"
  else if jsLt (.num 0) days then .ok ("In " ++ jsNumToString days ++ " days")
  else .ok (jsNumToString (jsAbs days) ++ " days ago")

deriving instance DecidableEq for Except

/-! ### Basic lemmas about the remainder and the phase fraction -/

theorem jsMod_lt (a b : ℚ) (hb : 0 < b) : jsMod a b < b := by
  unfold jsMod jsTrunc
  have key : a / b * b = a := div_mul_cancel₀ a (ne_of_gt hb)
  split_ifs with h
  · have h2 : a / b < ⌊a / b⌋ + 1 := Int.lt_floor_add_one (a / b)
    have h2b := mul_lt_mul_of_pos_right h2 hb
    rw [key] at h2b
    nlinarith
  · have h1 : a / b ≤ (⌈a / b⌉ : ℚ) := Int.le_ceil (a / b)
    have h1b := mul_le_mul_of_nonneg_right h1 (le_of_lt hb)
    rw [key] at h1b
    nlinarith

theorem neg_lt_jsMod (a b : ℚ) (hb : 0 < b) : -b < jsMod a b := by
  unfold jsMod jsTrunc
  have key : a / b * b = a := div_mul_cancel₀ a (ne_of_gt hb)
  split_ifs with h
  · have h1 : (⌊a / b⌋ : ℚ) ≤ a / b := Int.floor_le (a / b)
    have h1b := mul_le_mul_of_nonneg_right h1 (le_of_lt hb)
    rw [key] at h1b
    nlinarith
  · have h2 : (⌈a / b⌉ : ℚ) < a / b + 1 := Int.ceil_lt_add_one (a / b)
    have h2b := mul_lt_mul_of_pos_right h2 hb
    rw [add_mul, key] at h2b
    nlinarith

theorem synodicQ_pos : (0 : ℚ) < synodicQ := by norm_num [synodicQ]

theorem phaseOfJD_nonneg (jd : ℚ) : 0 ≤ phaseOfJD jd := by
  simp only [phaseOfJD]
  have hs := synodicQ_pos
  have h1 := neg_lt_jsMod (jd - newMoonJD) synodicQ hs
  split_ifs with h
  · have h2 : jsMod (jd - newMoonJD) synodicQ / synodicQ > -1 := by
      rw [gt_iff_lt, lt_div_iff₀ hs]; linarith
    linarith
  · linarith [not_lt.mp h]

theorem phaseOfJD_lt_one (jd : ℚ) : phaseOfJD jd < 1 := by
  simp only [phaseOfJD]
  have hs := synodicQ_pos
  have h1 := jsMod_lt (jd - newMoonJD) synodicQ hs
  have h2 : jsMod (jd - newMoonJD) synodicQ / synodicQ < 1 := by
    rw [div_lt_one hs]; linarith
  split_ifs with h
  · linarith
  · exact h2

/-! ### Validity of calendar components and success of `moonPhase` -/

theorem civilMonth_bounds (t : ℤ) : 1 ≤ civilMonth t ∧ civilMonth t ≤ 12 := by
  simp only [civilMonth, civilMp, civilDoy, civilYoe, civilDoe, civilEra, civilZ, msDays]
  omega

theorem civilDay_bounds (t : ℤ) : 1 ≤ civilDay t ∧ civilDay t ≤ 31 := by
  simp only [civilDay, civilMp, civilDoy, civilYoe, civilDoe, civilEra, civilZ, msDays]
  omega

theorem civilYear_lb (t : ℤ) (h : -(10 ^ 12) ≤ t) : 1600 ≤ civilYear t := by
  simp only [civilYear, civilMonth, civilMp, civilDoy, civilYoe, civilDoe, civilEra, civilZ,
    msDays]
  omega

/-- For any timestamp of the last few millennia (anything at or after
`-10^12` ms, i.e. the year 1938), all `moonPhase` validation passes and the
result is a phase fraction in `[0, 1)`. -/
theorem moonPhaseAt_ok (t : ℤ) (h : -(10 ^ 12) ≤ t) :
    ∃ q : ℚ, moonPhaseAt t = .ok q ∧ 0 ≤ q ∧ q < 1 := by
  have hm := civilMonth_bounds t
  have hd := civilDay_bounds t
  have hy := civilYear_lb t h
  unfold moonPhaseAt moonPhase julianDay msToDateTime
  simp only
  rw [if_neg (by push_neg; omega)]
  exact ⟨_, rfl, phaseOfJD_nonneg _, phaseOfJD_lt_one _⟩

/-! ### C1: the Julian Day formula -/

theorem floor_ratCast_div_hundred (n : ℤ) : ⌊(n : ℚ) / 100⌋ = n / 100 := by
  have h := Rat.floor_intCast_div_natCast n 100
  norm_num at h
  exact h

theorem floor_ratCast_div_four (n : ℤ) : ⌊(n : ℚ) / 4⌋ = n / 4 := by
  have h := Rat.floor_intCast_div_natCast n 4
  norm_num at h
  exact h

theorem jdCore_eq_spec (year month day : ℤ) (hour minute second : ℚ) :
    jdCore year month day hour minute second =
      specJulianDay year month day hour minute second := by
  simp only [jdCore, specJulianDay]
  split_ifs with hm
  · rw [show ((year : ℚ) - 1) = ((year - 1 : ℤ) : ℚ) by push_cast; ring,
      show ((month : ℚ) + 12) = ((month + 12 : ℤ) : ℚ) by push_cast; ring,
      floor_ratCast_div_hundred, floor_ratCast_div_four]
    push_cast
    ring
  · rw [floor_ratCast_div_hundred, floor_ratCast_div_four]
    push_cast
    ring

/-- C1: for every year, month, day, hour, minute, second passing validation
(month in `[1,12]`, day in `[1,31]`, year ≥ −4712), `julianDay` returns the
spec's formula `floor(365.25(y+4716)) + floor(30.6001(m+1)) + day +
dayFraction + b − 1524.5` (with the Jan/Feb adjustment and the century
correction `b`), and in particular `julianDay 2000 1 1 12 0 0 = 2451545`. -/
theorem claim_C1 :
    (∀ (year month day : ℤ) (hour minute second : ℚ),
      1 ≤ month → month ≤ 12 → 1 ≤ day → day ≤ 31 → -4712 ≤ year →
      julianDay year month day hour minute second =
        .ok (specJulianDay year month day hour minute second)) ∧
    julianDay 2000 1 1 12 0 0 = .ok 2451545 := by
  constructor
  · intro y m d hh mi ss h1 h2 h3 h4 h5
    unfold julianDay
    rw [if_neg (by push_neg; refine ⟨by omega, by omega, by omega, by omega, by omega⟩),
      jdCore_eq_spec]
  · norm_num [julianDay, jdCore]

/-- Witness for C1 at the calibration input `(2024, 6, 15, 18, 30, 0)`. -/
theorem claim_C1_witness :
    julianDay 2024 6 15 18 30 0 = .ok (specJulianDay 2024 6 15 18 30 0) :=
  claim_C1.1 2024 6 15 18 30 0 (by norm_num) (by norm_num) (by norm_num) (by norm_num)
    (by norm_num)

/-! ### C2: the phase fraction formula and its range -/

theorem specMoonPhase_eq (jd : ℚ) : specMoonPhase jd = phaseOfJD jd := by
  simp only [specMoonPhase, phaseOfJD, synodicQ, newMoonJD]
  have hs : (0 : ℚ) < 29.53058868 := by norm_num
  by_cases h : jsMod (jd - 2451549.5) 29.53058868 < 0
  · rw [if_pos h, if_pos (div_neg_of_neg_of_pos h hs)]
  · rw [if_neg h, if_neg (by
      push_neg at h ⊢
      exact div_nonneg h (le_of_lt hs))]

/-- C2: for every valid instant, `moonPhase` returns the spec formula
`((jd − 2451549.5) mod 29.53058868) / 29.53058868` (plus 1 when the mod
result is negative) applied to the instant's Julian Day, the result always
lies in `[0, 1)`, and at the instant `2000-01-06 00:00:00` (whose Julian Day
is exactly `2451549.5`) the result is exactly `0`. -/
theorem claim_C2 :
    (∀ year month day hour minute second : ℤ,
      ValidInstant ⟨year, month, day, hour, minute, second⟩ →
      ∃ q : ℚ, moonPhase ⟨year, month, day, hour, minute, second⟩ = .ok q ∧
        q = specMoonPhase (jdCore year month day (hour : ℚ) (minute : ℚ) (second : ℚ)) ∧
        0 ≤ q ∧ q < 1) ∧
    moonPhase ⟨2000, 1, 6, 0, 0, 0⟩ = .ok 0 := by
  constructor
  · intro y m d hh mi ss hv
    obtain ⟨h1, h2, h3, h4, h5⟩ :
        1 ≤ m ∧ m ≤ 12 ∧ 1 ≤ d ∧ d ≤ 31 ∧ -4712 ≤ y := hv
    unfold moonPhase julianDay
    simp only
    rw [if_neg (by push_neg; refine ⟨by omega, by omega, by omega, by omega, by omega⟩)]
    exact ⟨_, rfl, (specMoonPhase_eq _).symm, phaseOfJD_nonneg _, phaseOfJD_lt_one _⟩
  · norm_num [moonPhase, julianDay, jdCore, phaseOfJD, jsMod, jsTrunc, synodicQ, newMoonJD]

/-- Witness for C2 at the epoch instant `2000-01-06 00:00:00`. -/
theorem claim_C2_witness :
    ValidInstant ⟨2000, 1, 6, 0, 0, 0⟩ ∧
      ∃ q : ℚ, moonPhase ⟨2000, 1, 6, 0, 0, 0⟩ = .ok q ∧
        q = specMoonPhase (jdCore 2000 1 6 ((0 : ℤ) : ℚ) ((0 : ℤ) : ℚ) ((0 : ℤ) : ℚ)) ∧
        0 ≤ q ∧ q < 1 :=
  ⟨by decide, claim_C2.1 2000 1 6 0 0 0 (by decide)⟩

/-! ### C6: the nine-way phase-name classification -/

/-- C6: `phaseName` agrees everywhere with the spec's band table (failing
with `InvalidInput` outside `[0,1]`, and on `[0,1]` returning exactly the
label of the band containing the phase), and in particular
`phaseName 1.5` fails with `InvalidInput`. -/
theorem claim_C6 :
    (∀ phase : ℚ, phaseName phase = phaseNameSpec phase) ∧
    phaseName 1.5 = .error .invalidInput := by
  constructor
  · intro q
    by_cases h : q < 0 ∨ q > 1
    · simp only [phaseName, phaseNameSpec, if_pos h]
    · have hcopy := h
      push_neg at hcopy
      obtain ⟨h0, h1⟩ := hcopy
      simp only [phaseName, phaseNameSpec, if_neg h]
      rcases lt_or_le q 0.0625 with hb1 | hb1
      · rw [if_pos hb1, if_pos ⟨h0, hb1⟩]
      rw [if_neg (not_lt.mpr hb1),
        if_neg (show ¬(0 ≤ q ∧ q < 0.0625) from fun hx => absurd hx.2 (not_lt.mpr hb1))]
      rcases lt_or_le q 0.1875 with hb2 | hb2
      · rw [if_pos hb2, if_pos ⟨hb1, hb2⟩]
      rw [if_neg (not_lt.mpr hb2),
        if_neg (show ¬(0.0625 ≤ q ∧ q < 0.1875) from fun hx => absurd hx.2 (not_lt.mpr hb2))]
      rcases lt_or_le q 0.3125 with hb3 | hb3
      · rw [if_pos hb3, if_pos ⟨hb2, hb3⟩]
      rw [if_neg (not_lt.mpr hb3),
        if_neg (show ¬(0.1875 ≤ q ∧ q < 0.3125) from fun hx => absurd hx.2 (not_lt.mpr hb3))]
      rcases lt_or_le q 0.4375 with hb4 | hb4
      · rw [if_pos hb4, if_pos ⟨hb3, hb4⟩]
      rw [if_neg (not_lt.mpr hb4),
        if_neg (show ¬(0.3125 ≤ q ∧ q < 0.4375) from fun hx => absurd hx.2 (not_lt.mpr hb4))]
      rcases lt_or_le q 0.5625 with hb5 | hb5
      · rw [if_pos hb5, if_pos ⟨hb4, hb5⟩]
      rw [if_neg (not_lt.mpr hb5),
        if_neg (show ¬(0.4375 ≤ q ∧ q < 0.5625) from fun hx => absurd hx.2 (not_lt.mpr hb5))]
      rcases lt_or_le q 0.6875 with hb6 | hb6
      · rw [if_pos hb6, if_pos ⟨hb5, hb6⟩]
      rw [if_neg (not_lt.mpr hb6),
        if_neg (show ¬(0.5625 ≤ q ∧ q < 0.6875) from fun hx => absurd hx.2 (not_lt.mpr hb6))]
      rcases lt_or_le q 0.8125 with hb7 | hb7
      · rw [if_pos hb7, if_pos ⟨hb6, hb7⟩]
      rw [if_neg (not_lt.mpr hb7),
        if_neg (show ¬(0.6875 ≤ q ∧ q < 0.8125) from fun hx => absurd hx.2 (not_lt.mpr hb7))]
      rcases lt_or_le q 0.9375 with hb8 | hb8
      · rw [if_pos hb8, if_pos ⟨hb7, hb8⟩]
      rw [if_neg (not_lt.mpr hb8),
        if_neg (show ¬(0.8125 ≤ q ∧ q < 0.9375) from fun hx => absurd hx.2 (not_lt.mpr hb8)),
        if_pos ⟨hb8, h1⟩]
  · norm_num [phaseName]

/-! ### C7: the illumination formula -/

/-- C7: on `[0,1]`, `illumination` returns exactly `|cos (phase·2π)|·100`
and every returned value lies in `[0,100]`; it returns exactly `100` at
phase `0` (new moon) and phase `1/2` (full moon); outside `[0,1]` it fails
with `InvalidInput`. -/
theorem claim_C7 :
    (∀ phase : ℚ, 0 ≤ phase → phase ≤ 1 →
      illumination phase = .ok (|Real.cos ((phase : ℝ) * 2 * Real.pi)| * 100) ∧
      ∀ r : ℝ, illumination phase = .ok r → 0 ≤ r ∧ r ≤ 100) ∧
    illumination 0 = .ok 100 ∧ illumination (1 / 2) = .ok 100 ∧
    ∀ phase : ℚ, phase < 0 ∨ 1 < phase → illumination phase = .error .invalidInput := by
  refine ⟨?_, ?_, ?_, ?_⟩
  · intro q h0 h1
    have hcond : ¬(q < 0 ∨ q > 1) := by push_neg; exact ⟨h0, h1⟩
    refine ⟨by simp only [illumination, if_neg hcond], ?_⟩
    intro r hr
    simp only [illumination, if_neg hcond, Except.ok.injEq] at hr
    rw [← hr]
    constructor
    · positivity
    · calc |Real.cos ((q : ℝ) * 2 * Real.pi)| * 100
          ≤ 1 * 100 :=
            mul_le_mul_of_nonneg_right (Real.abs_cos_le_one _) (by norm_num)
        _ = 100 := by norm_num
  · have hc : ¬((0 : ℚ) < 0 ∨ (0 : ℚ) > 1) := by norm_num
    simp only [illumination, if_neg hc]
    norm_num [Real.cos_zero]
  · have hc : ¬((1 / 2 : ℚ) < 0 ∨ (1 / 2 : ℚ) > 1) := by norm_num
    have harg : ((1 / 2 : ℚ) : ℝ) * 2 * Real.pi = Real.pi := by push_cast; ring
    simp only [illumination, if_neg hc, harg, Real.cos_pi]
    norm_num
  · intro q h
    simp only [illumination, if_pos h]

/-- Witness for C7 at phase `0`. -/
theorem claim_C7_witness :
    illumination 0 = .ok (|Real.cos (((0 : ℚ) : ℝ) * 2 * Real.pi)| * 100) :=
  (claim_C7.1 0 (le_refl 0) (by norm_num)).1

/-! ### Lemmas about the two-stage phase search -/

theorem moonPhaseAt_range {t : ℤ} {q : ℚ} (h : moonPhaseAt t = .ok q) : 0 ≤ q ∧ q < 1 := by
  unfold moonPhaseAt moonPhase at h
  split at h
  · exact (Except.noConfusion h)
  · have hq := Except.ok.inj h
    rw [← hq]
    exact ⟨phaseOfJD_nonneg _, phaseOfJD_lt_one _⟩

theorem wdist_nonneg {p target : ℚ} (hp0 : 0 ≤ p) (hp1 : p < 1) (ht0 : 0 ≤ target)
    (ht1 : target ≤ 1) : 0 ≤ wdist p target := by
  simp only [wdist]
  split_ifs with h
  · have habs : |p - target| ≤ 1 := abs_le.mpr ⟨by linarith, by linarith⟩
    linarith
  · exact abs_nonneg _

theorem wdist_self (target : ℚ) : wdist target target = 0 := by
  simp only [wdist, sub_self, abs_zero]
  norm_num

set_option maxRecDepth 40000 in
theorem hourList_bounds : ∀ h ∈ hourList, 0 ≤ h ∧ h ≤ 732 := by decide

set_option maxRecDepth 40000 in
theorem minutesList_bounds : ∀ m ∈ minutesList, -720 ≤ m ∧ m ≤ 720 := by decide

/-! One-step unfolding equations for the loops, proved by `rfl` (the
automatically generated equation lemmas force reduction of the symbolic
`moonPhaseAt` scrutinee, which does not terminate in reasonable time). -/

theorem refineLoop_nil (a : ℤ) (target : ℚ) (acc : ℤ × ℚ) :
    refineLoop a target [] acc = .ok acc.1 := rfl

theorem refineLoop_cons (a : ℤ) (target : ℚ) (m : ℤ) (ms : List ℤ) (acc : ℤ × ℚ) :
    refineLoop a target (m :: ms) acc =
      match moonPhaseAt (a + m * 60000) with
      | .error e => .error e
      | .ok p =>
        refineLoop a target ms
          (if wdist p target < acc.2 then (a + m * 60000, wdist p target) else acc) := rfl

theorem findLoop_nil (target : ℚ) (start : ℤ) (acc : ℤ × ℚ) :
    findLoop target start [] acc =
      if acc.2 < 0.1 then refinePhaseDate acc.1 target else .error .phaseNotFound := rfl

theorem findLoop_cons (target : ℚ) (start : ℤ) (h : ℤ) (hs : List ℤ) (acc : ℤ × ℚ) :
    findLoop target start (h :: hs) acc =
      match moonPhaseAt (start + h * 3600000) with
      | .error e => .error e
      | .ok p =>
        if (if wdist p target < acc.2 then (start + h * 3600000, wdist p target) else acc).2
            < 0.02 then
          refinePhaseDate
            (if wdist p target < acc.2 then (start + h * 3600000, wdist p target) else acc).1
            target
        else
          findLoop target start hs
            (if wdist p target < acc.2 then (start + h * 3600000, wdist p target) else acc)
      := rfl

/-- Invariant of the refinement loop: a successful run starting from an
accumulator whose best diff is realized by a phase sample inside the
±720-minute window ends at such a point with a diff no larger than the
starting one. -/
theorem refineLoop_ok {a : ℤ} {target : ℚ} :
    ∀ (ms : List ℤ) (acc : ℤ × ℚ) (r : ℤ),
      refineLoop a target ms acc = .ok r →
      (∀ m ∈ ms, -720 ≤ m ∧ m ≤ 720) →
      (∃ p, moonPhaseAt acc.1 = .ok p ∧ wdist p target = acc.2) →
      a - 43200000 ≤ acc.1 → acc.1 ≤ a + 43200000 →
      ∃ p, moonPhaseAt r = .ok p ∧ wdist p target ≤ acc.2 ∧
        a - 43200000 ≤ r ∧ r ≤ a + 43200000 := by
  intro ms
  induction ms with
  | nil =>
    intro acc r hr _ hacc hlo hhi
    rw [refineLoop_nil] at hr
    obtain ⟨p, hp, hw⟩ := hacc
    exact (Except.ok.inj hr) ▸ ⟨p, hp, le_of_eq hw, hlo, hhi⟩
  | cons m ms ih =>
    intro acc r hr hmem hacc hlo hhi
    rw [refineLoop_cons] at hr
    split at hr
    · exact (Except.noConfusion hr)
    · rename_i p hsample
      have hm := hmem m (List.mem_cons_self m ms)
      have hmem' : ∀ x ∈ ms, -720 ≤ x ∧ x ≤ 720 :=
        fun x hx => hmem x (List.mem_cons_of_mem m hx)
      by_cases hupd : wdist p target < acc.2
      · rw [if_pos hupd] at hr
        obtain ⟨p', hp', hw', hlo', hhi'⟩ := ih _ r hr hmem'
          ⟨p, hsample, rfl⟩ (by omega) (by omega)
        exact ⟨p', hp', le_of_lt (lt_of_le_of_lt hw' hupd), hlo', hhi'⟩
      · rw [if_neg hupd] at hr
        exact ih _ r hr hmem' hacc hlo hhi

/-- A successful `refinePhaseDate` returns a point of the ±720-minute window
whose wrapped distance to the target is at most that of the input point. -/
theorem refinePhaseDate_ok {a : ℤ} {target : ℚ} {r : ℤ}
    (hr : refinePhaseDate a target = .ok r) :
    ∃ p0 p, moonPhaseAt a = .ok p0 ∧ moonPhaseAt r = .ok p ∧
      wdist p target ≤ wdist p0 target ∧ a - 43200000 ≤ r ∧ r ≤ a + 43200000 := by
  unfold refinePhaseDate at hr
  split at hr
  · exact (Except.noConfusion hr)
  · rename_i p0 h0
    obtain ⟨p, hp, hw, hlo, hhi⟩ := refineLoop_ok minutesList (a, wdist p0 target) r hr
      minutesList_bounds ⟨p0, h0, rfl⟩ (by omega) (by omega)
    exact ⟨p0, p, h0, hp, hw, hlo, hhi⟩

/-- Invariant of the coarse scan: a successful search returns a point whose
phase is within wrapped distance `0.1` of the target and which lies no more
than 720 minutes outside the scanned `[start, start + 732h]` window. -/
theorem findLoop_ok {target : ℚ} {start : ℤ} :
    ∀ (hs : List ℤ) (acc : ℤ × ℚ) (r : ℤ),
      findLoop target start hs acc = .ok r →
      (∀ h ∈ hs, 0 ≤ h ∧ h ≤ 732) →
      (acc = (start, 1) ∨ ∃ p, moonPhaseAt acc.1 = .ok p ∧ wdist p target = acc.2 ∧
        start ≤ acc.1 ∧ acc.1 ≤ start + 732 * 3600000) →
      ∃ p, moonPhaseAt r = .ok p ∧ wdist p target < 0.1 ∧
        start - 43200000 ≤ r ∧ r ≤ start + 732 * 3600000 + 43200000 := by
  intro hs
  induction hs with
  | nil =>
    intro acc r hr _ hinv
    rw [findLoop_nil] at hr
    by_cases hlt : acc.2 < 0.1
    · rw [if_pos hlt] at hr
      rcases hinv with heq | ⟨p, hp, hw, hlo, hhi⟩
      · rw [heq] at hlt; norm_num at hlt
      · obtain ⟨p0, p', h0, hp', hw', hlo', hhi'⟩ := refinePhaseDate_ok hr
        have hp0 : p0 = p := by rw [hp] at h0; exact (Except.ok.inj h0).symm
        refine ⟨p', hp', ?_, by omega, by omega⟩
        calc wdist p' target ≤ wdist p0 target := hw'
          _ = acc.2 := by rw [hp0, hw]
          _ < 0.1 := hlt
    · rw [if_neg hlt] at hr
      exact (Except.noConfusion hr)
  | cons h hs ih =>
    intro acc r hr hmem hinv
    rw [findLoop_cons] at hr
    split at hr
    · exact (Except.noConfusion hr)
    · rename_i p hsample
      have hh := hmem h (List.mem_cons_self h hs)
      have hmem' : ∀ x ∈ hs, 0 ≤ x ∧ x ≤ 732 :=
        fun x hx => hmem x (List.mem_cons_of_mem h hx)
      by_cases hupd : wdist p target < acc.2
      · rw [if_pos hupd] at hr
        dsimp only at hr
        by_cases hexit : wdist p target < 0.02
        · rw [if_pos hexit] at hr
          obtain ⟨p0, p', h0, hp', hw', hlo', hhi'⟩ := refinePhaseDate_ok hr
          have hp0 : p0 = p := by rw [hsample] at h0; exact (Except.ok.inj h0).symm
          refine ⟨p', hp', ?_, by omega, by omega⟩
          calc wdist p' target ≤ wdist p0 target := hw'
            _ = wdist p target := by rw [hp0]
            _ < 0.02 := hexit
            _ < 0.1 := by norm_num
        · rw [if_neg hexit] at hr
          exact ih _ r hr hmem' (Or.inr ⟨p, hsample, rfl, by omega, by omega⟩)
      · rw [if_neg hupd] at hr
        by_cases hexit : acc.2 < 0.02
        · rw [if_pos hexit] at hr
          rcases hinv with heq | ⟨pa, hpa, hwa, hloa, hhia⟩
          · rw [heq] at hexit; norm_num at hexit
          · obtain ⟨p0, p', h0, hp', hw', hlo', hhi'⟩ := refinePhaseDate_ok hr
            have hp0 : p0 = pa := by rw [hpa] at h0; exact (Except.ok.inj h0).symm
            refine ⟨p', hp', ?_, by omega, by omega⟩
            calc wdist p' target ≤ wdist p0 target := hw'
              _ = acc.2 := by rw [hp0, hwa]
              _ < 0.02 := hexit
              _ < 0.1 := by norm_num
        · rw [if_neg hexit] at hr
          exact ih _ r hr hmem' hinv

/-- Everything a successful `findNextPhase` guarantees: the returned instant
carries a phase within wrapped distance `0.1` of the target, and lies between
`start − 720` minutes and `start + 732` hours `+ 720` minutes, where
`start = fromTime + 1` hour. -/
theorem findNextPhase_ok {fromTime : ℤ} {target : ℚ} {r : ℤ}
    (hr : findNextPhase fromTime target = .ok r) :
    ∃ p, moonPhaseAt r = .ok p ∧ wdist p target < 0.1 ∧
      fromTime + 3600000 - 43200000 ≤ r ∧
      r ≤ fromTime + 3600000 + 732 * 3600000 + 43200000 := by
  unfold findNextPhase at hr
  obtain ⟨p, hp, hw, hlo, hhi⟩ := findLoop_ok hourList _ r hr hourList_bounds (Or.inl rfl)
  exact ⟨p, hp, hw, by omega, by omega⟩

/-- C10: a successful `findNextPhase` (hence `nextNewMoon`/`nextFullMoon`)
returns an instant no earlier than `fromTime + 1h − 720min` (11 hours before
`fromTime`) and no later than `fromTime + 1h + 30.53·24h + 720min`. -/
theorem claim_C10 :
    ∀ (fromTime : ℤ) (target : ℚ) (r : ℤ),
      findNextPhase fromTime target = .ok r →
      fromTime + 3600000 - 720 * 60000 ≤ r ∧
      r ≤ fromTime + 3600000 + 2637792000 + 720 * 60000 := by
  intro t tp r hr
  obtain ⟨p, hp, hw, hlo, hhi⟩ := findNextPhase_ok hr
  exact ⟨by omega, by omega⟩

/-- C3 (amended): a successful `nextNewMoon` returns an instant no earlier
than 11 hours before `fromTime` — not necessarily strictly after it — whose
`moonPhase` is within wrapped circular distance `0.1` of `0`; likewise
`nextFullMoon` with target `0.5`. -/
theorem claim_C3_amended :
    (∀ fromTime r : ℤ, nextNewMoon fromTime = .ok r →
      fromTime - 39600000 ≤ r ∧ ∃ p, moonPhaseAt r = .ok p ∧ wdist p 0 < 0.1) ∧
    ∀ fromTime r : ℤ, nextFullMoon fromTime = .ok r →
      fromTime - 39600000 ≤ r ∧ ∃ p, moonPhaseAt r = .ok p ∧ wdist p 0.5 < 0.1 := by
  constructor
  · intro t r hr
    obtain ⟨p, hp, hw, hlo, hhi⟩ := findNextPhase_ok hr
    exact ⟨by omega, p, hp, hw⟩
  · intro t r hr
    obtain ⟨p, hp, hw, hlo, hhi⟩ := findNextPhase_ok hr
    exact ⟨by omega, p, hp, hw⟩

/-! ### Concrete evaluation of the search at a new-moon instant

`947116800000` ms is `2000-01-06 00:00:00`, whose Julian Day is exactly the
epoch `2451549.5`, so its phase is exactly `0`.  Starting the search from
`947156400000` ms (= that instant + 11 hours) exercises the path where the
refinement window reaches back before `fromTime`. -/

theorem moonPhaseAt_epoch : moonPhaseAt 947116800000 = .ok 0 := by
  have h : msToDateTime 947116800000 = ⟨2000, 1, 6, 0, 0, 0⟩ := by decide
  rw [moonPhaseAt, h]
  norm_num [moonPhase, julianDay, jdCore, phaseOfJD, jsMod, jsTrunc, synodicQ, newMoonJD]

theorem moonPhaseAt_epoch12 : moonPhaseAt 947160000000 = .ok (12500000 / 738264717) := by
  have h : msToDateTime 947160000000 = ⟨2000, 1, 6, 12, 0, 0⟩ := by decide
  rw [moonPhaseAt, h]
  norm_num [moonPhase, julianDay, jdCore, phaseOfJD, jsMod, jsTrunc, synodicQ, newMoonJD]

theorem wdist_epoch12 : wdist (12500000 / 738264717) 0 = 12500000 / 738264717 := by
  rw [wdist]
  rw [sub_zero, abs_of_nonneg (by norm_num : (0 : ℚ) ≤ 12500000 / 738264717)]
  rw [if_neg (by norm_num)]

/-- Once the refinement accumulator reaches diff `0`, no later sample strictly
improves it, so the loop returns the accumulator's point. -/
theorem refineLoop_zero {a : ℤ} {target : ℚ} (ht0 : 0 ≤ target) (ht1 : target ≤ 1) :
    ∀ (ms : List ℤ) (bt : ℤ),
      (∀ m ∈ ms, ∃ q, moonPhaseAt (a + m * 60000) = .ok q) →
      refineLoop a target ms (bt, 0) = .ok bt := by
  intro ms
  induction ms with
  | nil => intro bt _; exact refineLoop_nil a target (bt, 0)
  | cons m ms ih =>
    intro bt hok
    obtain ⟨q, hq⟩ := hok m (List.mem_cons_self m ms)
    obtain ⟨hq0, hq1⟩ := moonPhaseAt_range hq
    rw [refineLoop_cons, hq]
    dsimp only
    rw [if_neg (not_lt.mpr (wdist_nonneg hq0 hq1 ht0 ht1))]
    exact ih bt (fun x hx => hok x (List.mem_cons_of_mem m hx))

/-- If the first refinement sample hits the target phase exactly and the
starting diff is positive, the refinement returns that first sample's
instant. -/
theorem refineLoop_hit {a : ℤ} {target : ℚ} (ht0 : 0 ≤ target) (ht1 : target ≤ 1)
    (ms : List ℤ) (acc : ℤ × ℚ) (m : ℤ)
    (hhit : moonPhaseAt (a + m * 60000) = .ok target) (hpos : 0 < acc.2)
    (hok : ∀ m' ∈ ms, ∃ q, moonPhaseAt (a + m' * 60000) = .ok q) :
    refineLoop a target (m :: ms) acc = .ok (a + m * 60000) := by
  rw [refineLoop_cons, hhit]
  dsimp only
  rw [wdist_self, if_pos hpos]
  exact refineLoop_zero ht0 ht1 ms (a + m * 60000) hok

theorem refineEval : refinePhaseDate 947160000000 0 = .ok 947116800000 := by
  have hok : ∀ m' ∈ stepList (-690) 30 48, ∃ q, moonPhaseAt (947160000000 + m' * 60000) = .ok q := by
    have hb : ∀ m' ∈ stepList (-690) 30 48, -690 ≤ m' ∧ m' ≤ 720 := by decide
    intro m' hm'
    obtain ⟨hm1, hm2⟩ := hb m' hm'
    obtain ⟨q, hq, -, -⟩ := moonPhaseAt_ok (947160000000 + m' * 60000) (by omega)
    exact ⟨q, hq⟩
  have hhit : moonPhaseAt (947160000000 + (-720) * 60000) = .ok 0 := by
    rw [show (947160000000 : ℤ) + (-720) * 60000 = 947116800000 by norm_num]
    exact moonPhaseAt_epoch
  unfold refinePhaseDate
  rw [moonPhaseAt_epoch12]
  show refineLoop 947160000000 0 minutesList (947160000000, wdist (12500000 / 738264717) 0)
      = .ok 947116800000
  rw [show minutesList = -720 :: stepList (-690) 30 48 from rfl]
  rw [refineLoop_hit (le_refl 0) (by norm_num) (stepList (-690) 30 48) _ (-720) hhit
    (by rw [wdist_epoch12]; norm_num) hok]
  norm_num

theorem findNextPhaseEval : findNextPhase 947156400000 0 = .ok 947116800000 := by
  unfold findNextPhase
  rw [show (947156400000 : ℤ) + 3600000 = 947160000000 by norm_num]
  rw [show hourList = 0 :: stepList 2 2 366 from rfl]
  rw [findLoop_cons]
  rw [show (947160000000 : ℤ) + 0 * 3600000 = 947160000000 by norm_num]
  rw [moonPhaseAt_epoch12]
  show (if (if wdist (12500000 / 738264717) 0 < ((947160000000 : ℤ), (1 : ℚ)).2 then
          ((947160000000 : ℤ), wdist (12500000 / 738264717) 0)
        else ((947160000000 : ℤ), (1 : ℚ))).2 < 0.02 then
      refinePhaseDate
        (if wdist (12500000 / 738264717) 0 < ((947160000000 : ℤ), (1 : ℚ)).2 then
          ((947160000000 : ℤ), wdist (12500000 / 738264717) 0)
        else ((947160000000 : ℤ), (1 : ℚ))).1 0
    else findLoop 0 947160000000 (stepList 2 2 366)
        (if wdist (12500000 / 738264717) 0 < ((947160000000 : ℤ), (1 : ℚ)).2 then
          ((947160000000 : ℤ), wdist (12500000 / 738264717) 0)
        else ((947160000000 : ℤ), (1 : ℚ)))) = .ok 947116800000
  rw [if_pos (show wdist (12500000 / 738264717) 0 < ((947160000000 : ℤ), (1 : ℚ)).2 by
    rw [wdist_epoch12]; norm_num)]
  rw [if_pos (show (((947160000000 : ℤ), wdist (12500000 / 738264717) 0)).2 < 0.02 by
    rw [wdist_epoch12]; norm_num)]
  exact refineEval

/-- C3 counterexample: starting the search 11 hours after the exact new moon
of `2000-01-06 00:00:00` (timestamp `947116800000`), `nextNewMoon` returns
that very instant — 11 hours BEFORE `fromTime = 947156400000` — because the
±720-minute refinement window reaches back past `fromTime`.  The original
claim's "returns an instant strictly after fromInstant" is therefore false. -/
theorem claim_C3_counterexample :
    nextNewMoon 947156400000 = .ok 947116800000 ∧
      ¬ (947156400000 : ℤ) < 947116800000 :=
  ⟨findNextPhaseEval, by decide⟩

/-- Witness for the amended C3 at the concrete input `947156400000`. -/
theorem claim_C3_witness :
    nextNewMoon 947156400000 = .ok 947116800000 ∧
      ((947156400000 : ℤ) - 39600000 ≤ 947116800000 ∧
        ∃ p, moonPhaseAt 947116800000 = .ok p ∧ wdist p 0 < 0.1) :=
  ⟨findNextPhaseEval, claim_C3_amended.1 947156400000 947116800000 findNextPhaseEval⟩

/-- Witness for C10 at the concrete input `947156400000`. -/
theorem claim_C10_witness :
    findNextPhase 947156400000 0 = .ok 947116800000 ∧
      ((947156400000 : ℤ) + 3600000 - 720 * 60000 ≤ 947116800000 ∧
        (947116800000 : ℤ) ≤ 947156400000 + 3600000 + 2637792000 + 720 * 60000) :=
  ⟨findNextPhaseEval, claim_C10 947156400000 0 947116800000 findNextPhaseEval⟩

/-! ### C4: exact characterization of the `PhaseNotFound` failure -/

theorem pureStep_ok {target : ℚ} {start : ℤ} {acc : ℤ × ℚ} {h : ℤ} {p : ℚ}
    (hp : moonPhaseAt (start + h * 3600000) = .ok p) :
    pureStep target start acc h =
      if wdist p target < acc.2 then (start + h * 3600000, wdist p target) else acc := by
  unfold pureStep
  rw [hp]

theorem pureStep_snd_le (target : ℚ) (start : ℤ) (acc : ℤ × ℚ) (h : ℤ) :
    (pureStep target start acc h).2 ≤ acc.2 := by
  unfold pureStep
  split
  · exact le_refl _
  · split_ifs with hlt
    · exact le_of_lt hlt
    · exact le_refl _

theorem foldl_pureStep_le (target : ℚ) (start : ℤ) :
    ∀ (l : List ℤ) (acc : ℤ × ℚ), (l.foldl (pureStep target start) acc).2 ≤ acc.2 := by
  intro l
  induction l with
  | nil => intro acc; exact le_refl _
  | cons x l ih =>
    intro acc
    rw [List.foldl_cons]
    exact le_trans (ih _) (pureStep_snd_le target start acc x)

/-- Under total success of sampling in the window, `refinePhaseDate` cannot
fail. -/
theorem refinePhaseDate_isOk {a : ℤ} {target : ℚ}
    (HOK : ∀ u : ℤ, a - 43200000 ≤ u → ∃ q, moonPhaseAt u = .ok q) :
    ∃ r, refinePhaseDate a target = .ok r := by
  have main : ∀ (ms : List ℤ) (acc : ℤ × ℚ), (∀ m ∈ ms, -720 ≤ m ∧ m ≤ 720) →
      ∃ r, refineLoop a target ms acc = .ok r := by
    intro ms
    induction ms with
    | nil => intro acc _; exact ⟨acc.1, refineLoop_nil a target acc⟩
    | cons m ms ih =>
      intro acc hmem
      obtain ⟨hm1, hm2⟩ := hmem m (List.mem_cons_self m ms)
      obtain ⟨q, hq⟩ := HOK (a + m * 60000) (by omega)
      rw [refineLoop_cons, hq]
      dsimp only
      exact ih _ (fun x hx => hmem x (List.mem_cons_of_mem m hx))
  obtain ⟨p0, hp0⟩ := HOK a (by omega)
  obtain ⟨r, hr⟩ := main minutesList (a, wdist p0 target) minutesList_bounds
  unfold refinePhaseDate
  rw [hp0]
  exact ⟨r, hr⟩

/-- The early-exit coarse loop fails exactly when the early-exit-free pure
fold of its remaining steps ends with best diff at least `0.1`.  (Since the
best diff is non-increasing along the scan, "never went below 0.02" is
implied by "ends at ≥ 0.1".) -/
theorem findLoop_error_iff {target : ℚ} {start : ℤ}
    (HOK : ∀ u : ℤ, start - 43200000 ≤ u → ∃ q, moonPhaseAt u = .ok q) :
    ∀ (hs : List ℤ) (acc : ℤ × ℚ),
      (∀ h ∈ hs, 0 ≤ h) →
      (acc = (start, 1) ∨ start ≤ acc.1) →
      (findLoop target start hs acc = .error .phaseNotFound ↔
        0.1 ≤ (hs.foldl (pureStep target start) acc).2) := by
  intro hs
  induction hs with
  | nil =>
    intro acc _ hwin
    rw [findLoop_nil, List.foldl_nil]
    by_cases hlt : acc.2 < 0.1
    · rw [if_pos hlt]
      constructor
      · intro habs
        have hacc1 : start ≤ acc.1 := by
          rcases hwin with heq | hge
          · rw [heq]
          · exact hge
        obtain ⟨r, hr⟩ := @refinePhaseDate_isOk acc.1 target
          (fun u hu => HOK u (by omega))
        rw [hr] at habs
        exact (Except.noConfusion habs)
      · intro hge
        exact absurd hge (not_le.mpr hlt)
    · rw [if_neg hlt]
      exact ⟨fun _ => not_lt.mp hlt, fun _ => rfl⟩
  | cons h hs ih =>
    intro acc hmem hwin
    have hh := hmem h (List.mem_cons_self h hs)
    obtain ⟨p, hp⟩ := HOK (start + h * 3600000) (by omega)
    rw [findLoop_cons, hp, List.foldl_cons, pureStep_ok hp]
    dsimp only
    have hmem' : ∀ x ∈ hs, 0 ≤ x := fun x hx => hmem x (List.mem_cons_of_mem h hx)
    by_cases hupd : wdist p target < acc.2
    · rw [if_pos hupd]
      dsimp only
      by_cases hexit : wdist p target < 0.02
      · rw [if_pos hexit]
        constructor
        · intro habs
          obtain ⟨r, hr⟩ := @refinePhaseDate_isOk (start + h * 3600000)
            target (fun u hu => HOK u (by omega))
          rw [hr] at habs
          exact (Except.noConfusion habs)
        · intro hge
          have hfle := foldl_pureStep_le target start hs (start + h * 3600000, wdist p target)
          dsimp only at hfle
          linarith
      · rw [if_neg hexit]
        exact ih (start + h * 3600000, wdist p target) hmem' (Or.inr (by omega))
    · rw [if_neg hupd]
      by_cases hexit : acc.2 < 0.02
      · rw [if_pos hexit]
        constructor
        · intro habs
          have hacc1 : start ≤ acc.1 := by
            rcases hwin with heq | hge
            · rw [heq] at hexit; norm_num at hexit
            · exact hge
          obtain ⟨r, hr⟩ := @refinePhaseDate_isOk acc.1 target
            (fun u hu => HOK u (by omega))
          rw [hr] at habs
          exact (Except.noConfusion habs)
        · intro hge
          have hfle := foldl_pureStep_le target start hs acc
          linarith
      · rw [if_neg hexit]
        exact ih acc hmem' hwin

/-- Under total success of sampling, the coarse search either returns an
instant or fails with `PhaseNotFound` — no other error can escape. -/
theorem findLoop_ok_or {target : ℚ} {start : ℤ}
    (HOK : ∀ u : ℤ, start - 43200000 ≤ u → ∃ q, moonPhaseAt u = .ok q) :
    ∀ (hs : List ℤ) (acc : ℤ × ℚ),
      (∀ h ∈ hs, 0 ≤ h) →
      (acc = (start, 1) ∨ start ≤ acc.1) →
      (∃ r, findLoop target start hs acc = .ok r) ∨
        findLoop target start hs acc = .error .phaseNotFound := by
  intro hs
  induction hs with
  | nil =>
    intro acc _ hwin
    rw [findLoop_nil]
    by_cases hlt : acc.2 < 0.1
    · rw [if_pos hlt]
      have hacc1 : start ≤ acc.1 := by
        rcases hwin with heq | hge
        · rw [heq]
        · exact hge
      exact Or.inl (refinePhaseDate_isOk (fun u hu => HOK u (by omega)))
    · rw [if_neg hlt]
      exact Or.inr rfl
  | cons h hs ih =>
    intro acc hmem hwin
    have hh := hmem h (List.mem_cons_self h hs)
    obtain ⟨p, hp⟩ := HOK (start + h * 3600000) (by omega)
    rw [findLoop_cons, hp]
    dsimp only
    have hmem' : ∀ x ∈ hs, 0 ≤ x := fun x hx => hmem x (List.mem_cons_of_mem h hx)
    by_cases hupd : wdist p target < acc.2
    · rw [if_pos hupd]
      dsimp only
      by_cases hexit : wdist p target < 0.02
      · rw [if_pos hexit]
        exact Or.inl (refinePhaseDate_isOk (fun u hu => HOK u (by omega)))
      · rw [if_neg hexit]
        exact ih (start + h * 3600000, wdist p target) hmem' (Or.inr (by omega))
    · rw [if_neg hupd]
      by_cases hexit : acc.2 < 0.02
      · rw [if_pos hexit]
        have hacc1 : start ≤ acc.1 := by
          rcases hwin with heq | hge
          · rw [heq] at hexit; norm_num at hexit
          · exact hge
        exact Or.inl (refinePhaseDate_isOk (fun u hu => HOK u (by omega)))
      · rw [if_neg hexit]
        exact ih acc hmem' hwin

/-- The characterization of `PhaseNotFound`, at the `findNextPhase` level,
for any (post-1970) starting instant. -/
theorem findNextPhase_error_char (fromTime : ℤ) (ht : 0 ≤ fromTime) (target : ℚ) :
    (findNextPhase fromTime target = .error .phaseNotFound ↔
      0.1 ≤ (coarseBest fromTime target).2 ∧
        ∀ k : ℕ, 0.02 ≤ (coarsePrefix fromTime target k).2) ∧
    (¬ (0.1 ≤ (coarseBest fromTime target).2 ∧
        ∀ k : ℕ, 0.02 ≤ (coarsePrefix fromTime target k).2) →
      ∃ r, findNextPhase fromTime target = .ok r) := by
  have HOK : ∀ u : ℤ, (fromTime + 3600000) - 43200000 ≤ u →
      ∃ q, moonPhaseAt u = .ok q := by
    intro u hu
    obtain ⟨q, hq, -, -⟩ := moonPhaseAt_ok u (by omega)
    exact ⟨q, hq⟩
  have core : findNextPhase fromTime target = .error .phaseNotFound ↔
      0.1 ≤ (coarseBest fromTime target).2 := by
    unfold findNextPhase coarseBest
    exact findLoop_error_iff HOK hourList _ (fun h hh => (hourList_bounds h hh).1)
      (Or.inl rfl)
  have mono : ∀ k : ℕ, (coarseBest fromTime target).2 ≤ (coarsePrefix fromTime target k).2 := by
    intro k
    unfold coarseBest coarsePrefix
    conv_lhs => rw [← List.take_append_drop k hourList]
    rw [List.foldl_append]
    exact foldl_pureStep_le target (fromTime + 3600000) _ _
  constructor
  · rw [core]
    constructor
    · intro hge
      exact ⟨hge, fun k => le_trans (by norm_num) (le_trans hge (mono k))⟩
    · exact fun hx => hx.1
  · intro hne
    rcases findLoop_ok_or HOK hourList _ (fun h hh => (hourList_bounds h hh).1)
      (Or.inl rfl) with ⟨r, hr⟩ | herr
    · exact ⟨r, hr⟩
    · exfalso
      apply hne
      have : findNextPhase fromTime target = .error .phaseNotFound := herr
      rw [core] at this
      exact ⟨this, fun k => le_trans (by norm_num) (le_trans this (mono k))⟩

/-- C4: for any valid (post-epoch) starting instant, `nextNewMoon` and
`nextFullMoon` fail with `PhaseNotFound` exactly when the full 2-hour-step
coarse scan ends with best wrapped distance still at least `0.1` and the
best distance never dropped below `0.02` at any point of the scan; in every
other case a refined instant is returned and no error is raised. -/
theorem claim_C4 :
    ∀ fromTime : ℤ, 0 ≤ fromTime →
      ((nextNewMoon fromTime = .error .phaseNotFound ↔
          0.1 ≤ (coarseBest fromTime 0).2 ∧
            ∀ k : ℕ, 0.02 ≤ (coarsePrefix fromTime 0 k).2) ∧
        (¬ (0.1 ≤ (coarseBest fromTime 0).2 ∧
            ∀ k : ℕ, 0.02 ≤ (coarsePrefix fromTime 0 k).2) →
          ∃ r, nextNewMoon fromTime = .ok r)) ∧
      ((nextFullMoon fromTime = .error .phaseNotFound ↔
          0.1 ≤ (coarseBest fromTime 0.5).2 ∧
            ∀ k : ℕ, 0.02 ≤ (coarsePrefix fromTime 0.5 k).2) ∧
        (¬ (0.1 ≤ (coarseBest fromTime 0.5).2 ∧
            ∀ k : ℕ, 0.02 ≤ (coarsePrefix fromTime 0.5 k).2) →
          ∃ r, nextFullMoon fromTime = .ok r)) := by
  intro t ht
  exact ⟨findNextPhase_error_char t ht 0, findNextPhase_error_char t ht 0.5⟩

/-- Witness for C4 at `fromTime = 0` (the 1970 epoch). -/
theorem claim_C4_witness :
    (0 : ℤ) ≤ 0 ∧
      (((nextNewMoon 0 = .error .phaseNotFound ↔
          0.1 ≤ (coarseBest 0 0).2 ∧ ∀ k : ℕ, 0.02 ≤ (coarsePrefix 0 0 k).2) ∧
        (¬ (0.1 ≤ (coarseBest 0 0).2 ∧ ∀ k : ℕ, 0.02 ≤ (coarsePrefix 0 0 k).2) →
          ∃ r, nextNewMoon 0 = .ok r)) ∧
      ((nextFullMoon 0 = .error .phaseNotFound ↔
          0.1 ≤ (coarseBest 0 0.5).2 ∧ ∀ k : ℕ, 0.02 ≤ (coarsePrefix 0 0.5 k).2) ∧
        (¬ (0.1 ≤ (coarseBest 0 0.5).2 ∧ ∀ k : ℕ, 0.02 ≤ (coarsePrefix 0 0.5 k).2) →
          ∃ r, nextFullMoon 0 = .ok r))) :=
  ⟨le_refl 0, claim_C4 0 (le_refl 0)⟩

/-! ### C5: `findPhaseEvents` output discipline -/

theorem eventsLoop_nil (startT endT s0 : ℤ) (evs : List PhaseEvent) :
    eventsLoop startT endT s0 [] evs = .ok evs := rfl

theorem eventsLoop_cons (startT endT s0 : ℤ) (k : ℕ) (ks : List ℕ)
    (evs : List PhaseEvent) :
    eventsLoop startT endT s0 (k :: ks) evs =
      match moonPhaseAt (s0 + (k : ℤ) * 86400000) with
      | .error e => .error e
      | .ok phase =>
        match moonPhaseAt (s0 + (k : ℤ) * 86400000 - 86400000) with
        | .error e => .error e
        | .ok prevPhase =>
          match moonPhaseAt (s0 + (k : ℤ) * 86400000 + 86400000) with
          | .error e => .error e
          | .ok nextPhase =>
            eventsLoop startT endT s0 ks
              (if classify prevPhase phase nextPhase ≠ "" ∧
                  startT ≤ s0 + (k : ℤ) * 86400000 ∧ s0 + (k : ℤ) * 86400000 ≤ endT
                then evs ++ [⟨s0 + (k : ℤ) * 86400000, classify prevPhase phase nextPhase,
                  phase⟩]
                else evs) := rfl

/-- Invariant of the day-by-day event scan: given total success of sampling,
the scan succeeds, every pushed event's day lies in `[startT, endT]`, and the
output stays in strictly increasing time order. -/
theorem eventsLoop_ok {startT endT s0 : ℤ}
    (HOK : ∀ u : ℤ, s0 - 86400000 ≤ u → ∃ q, moonPhaseAt u = .ok q) :
    ∀ (ks : List ℕ) (evs : List PhaseEvent),
      (∀ e ∈ evs, startT ≤ e.time ∧ e.time ≤ endT) →
      List.Pairwise (fun a b => a.time < b.time) evs →
      (∀ e ∈ evs, ∀ k ∈ ks, e.time < s0 + (k : ℤ) * 86400000) →
      List.Pairwise (· < ·) ks →
      ∃ res, eventsLoop startT endT s0 ks evs = .ok res ∧
        (∀ e ∈ res, startT ≤ e.time ∧ e.time ≤ endT) ∧
        List.Pairwise (fun a b => a.time < b.time) res := by
  intro ks
  induction ks with
  | nil =>
    intro evs h1 h2 _ _
    exact ⟨evs, eventsLoop_nil startT endT s0 evs, h1, h2⟩
  | cons k ks ih =>
    intro evs h1 h2 h3 h4
    have hk : (0 : ℤ) ≤ (k : ℤ) := Int.natCast_nonneg k
    obtain ⟨cur, hcur⟩ := HOK (s0 + (k : ℤ) * 86400000) (by nlinarith)
    obtain ⟨prev, hprev⟩ := HOK (s0 + (k : ℤ) * 86400000 - 86400000) (by nlinarith)
    obtain ⟨next, hnext⟩ := HOK (s0 + (k : ℤ) * 86400000 + 86400000) (by nlinarith)
    rw [eventsLoop_cons, hcur, hprev, hnext]
    dsimp only
    split_ifs with hc
    · apply ih
      · intro e he
        rcases List.mem_append.mp he with hmem | hmem
        · exact h1 e hmem
        · rw [List.mem_singleton.mp hmem]
          exact ⟨hc.2.1, hc.2.2⟩
      · rw [List.pairwise_append]
        refine ⟨h2, List.pairwise_singleton _ _, ?_⟩
        intro a ha b hb
        rw [List.mem_singleton.mp hb]
        exact h3 a ha k (List.mem_cons_self k ks)
      · intro e he k' hk'
        have hkk' : k < k' := (List.pairwise_cons.mp h4).1 k' hk'
        rcases List.mem_append.mp he with hmem | hmem
        · exact h3 e hmem k' (List.mem_cons_of_mem k hk')
        · rw [List.mem_singleton.mp hmem]
          show s0 + (k : ℤ) * 86400000 < s0 + (k' : ℤ) * 86400000
          omega
      · exact (List.pairwise_cons.mp h4).2
    · apply ih
      · exact h1
      · exact h2
      · exact fun e he k' hk' => h3 e he k' (List.mem_cons_of_mem k hk')
      · exact (List.pairwise_cons.mp h4).2

/-- C5: for valid (post-epoch) range endpoints, `findPhaseEvents` succeeds,
every returned event's day lies within the un-padded `[startT, endT]` range,
the returned sequence is finite and strictly chronological, and a degenerate
range (`endT < startT`) yields the empty sequence with no error. -/
theorem claim_C5 :
    ∀ startT endT : ℤ, 0 ≤ startT →
      ∃ evs, findPhaseEvents startT endT = .ok evs ∧
        (∀ e ∈ evs, startT ≤ e.time ∧ e.time ≤ endT) ∧
        List.Pairwise (fun a b => a.time < b.time) evs ∧
        (endT < startT → evs = []) := by
  intro s e hs
  have HOK : ∀ u : ℤ, (s - 2 * 86400000) - 86400000 ≤ u → ∃ q, moonPhaseAt u = .ok q := by
    intro u hu
    obtain ⟨q, hq, -, -⟩ := moonPhaseAt_ok u (by omega)
    exact ⟨q, hq⟩
  unfold findPhaseEvents
  obtain ⟨res, hres, hin, hpw⟩ := eventsLoop_ok HOK (List.range _) []
    (fun ev hev => absurd hev (List.not_mem_nil ev))
    List.Pairwise.nil
    (fun ev hev => absurd hev (List.not_mem_nil ev))
    (List.pairwise_lt_range _)
  refine ⟨res, hres, hin, hpw, ?_⟩
  intro hlt
  rcases hres2 : res with _ | ⟨ev, res'⟩
  · rfl
  · exfalso
    obtain ⟨hle, hge⟩ := hin ev (by rw [hres2]; exact List.mem_cons_self ev res')
    omega

/-- Witness for C5 on the concrete one-day range `2000-01-01`. -/
theorem claim_C5_witness :
    (0 : ℤ) ≤ 946684800000 ∧
      ∃ evs, findPhaseEvents 946684800000 946684800000 = .ok evs ∧
        (∀ ev ∈ evs, (946684800000 : ℤ) ≤ ev.time ∧ ev.time ≤ 946684800000) ∧
        List.Pairwise (fun a b => a.time < b.time) evs ∧
        ((946684800000 : ℤ) < 946684800000 → evs = []) :=
  ⟨by norm_num, claim_C5 946684800000 946684800000 (by norm_num)⟩

/-! ### C8: the validation guard of `julianDay` under IEEE semantics -/

theorem julianDayJS_error_iff (y m d hh mi ss : JSNum) :
    julianDayJS y m d hh mi ss = .error .invalidInput ↔
      (jsLt y (.num (-4712)) || jsLt m (.num 1) || jsLt (.num 12) m ||
        jsLt d (.num 1) || jsLt (.num 31) d) = true := by
  unfold julianDayJS
  by_cases hc : (jsLt y (.num (-4712)) || jsLt m (.num 1) || jsLt (.num 12) m ||
      jsLt d (.num 1) || jsLt (.num 31) d) = true
  · rw [if_pos hc]
    exact ⟨fun _ => hc, fun _ => rfl⟩
  · rw [if_neg hc]
    dsimp only
    exact ⟨fun h => Except.noConfusion h, fun h => absurd h hc⟩

theorem julianDayJS_nan_eval :
    julianDayJS .nan (.num 6) (.num 15) (.num 0) (.num 0) (.num 0) = .ok .nan := by
  norm_num [julianDayJS, jsLt, jsLe, jsAdd, jsSub, jsMul, jsDiv, jsFloor]

/-- C8 counterexample: a NaN `year` passes every validation comparison
(IEEE comparisons with NaN are false), so `julianDay(NaN, 6, 15, 0, 0, 0)`
does NOT fail with `InvalidInput` — it computes through and returns NaN.
The claim's "this rejection also covers every non-finite numeric argument"
is therefore false. -/
theorem claim_C8_counterexample :
    julianDayJS .nan (.num 6) (.num 15) (.num 0) (.num 0) (.num 0) = .ok .nan ∧
      julianDayJS .nan (.num 6) (.num 15) (.num 0) (.num 0) (.num 0) ≠
        .error .invalidInput := by
  refine ⟨julianDayJS_nan_eval, ?_⟩
  rw [julianDayJS_nan_eval]
  exact fun h => Except.noConfusion h

/-- C8 (amended): `julianDay` fails with `InvalidInput`, before any
computation, exactly when one of the IEEE comparisons `year < -4712`,
`month < 1`, `month > 12`, `day < 1`, `day > 31` holds; for finite
arguments this is exactly month outside `[1,12]`, day outside `[1,31]` or
year `< -4712`, but a NaN argument passes every comparison (and
hour/minute/second are never validated), so non-finite arguments are not
all rejected — e.g. a NaN year flows through and yields NaN. -/
theorem claim_C8_amended :
    (∀ y m d hh mi ss : JSNum,
      julianDayJS y m d hh mi ss = .error .invalidInput ↔
        (jsLt y (.num (-4712)) || jsLt m (.num 1) || jsLt (.num 12) m ||
          jsLt d (.num 1) || jsLt (.num 31) d) = true) ∧
    (∀ (y m d : ℚ) (hh mi ss : JSNum),
      julianDayJS (.num y) (.num m) (.num d) hh mi ss = .error .invalidInput ↔
        y < -4712 ∨ m < 1 ∨ m > 12 ∨ d < 1 ∨ d > 31) ∧
    julianDayJS .nan (.num 6) (.num 15) (.num 0) (.num 0) (.num 0) = .ok .nan := by
  refine ⟨julianDayJS_error_iff, ?_, julianDayJS_nan_eval⟩
  intro y m d hh mi ss
  rw [julianDayJS_error_iff]
  simp only [jsLt, Bool.or_eq_true, decide_eq_true_eq]
  tauto

/-! ### C9: `formatRelativeTime` -/

theorem formatRelativeTime_pos (n : ℤ) (hn : 2 ≤ n) :
    formatRelativeTime (.num (n : ℚ)) = .ok ("In " ++ toString n ++ " days") := by
  unfold formatRelativeTime
  rw [if_neg (fun h => JSNum.noConfusion h)]
  rw [if_neg (fun h => by
    have := JSNum.num.inj h
    have hn0 : n = 0 := by exact_mod_cast this
    omega)]
  rw [if_neg (fun h => by
    have := JSNum.num.inj h
    have hn1 : n = 1 := by exact_mod_cast this
    omega)]
  rw [if_neg (fun h => by
    have := JSNum.num.inj h
    have hn1 : n = -1 := by exact_mod_cast this
    omega)]
  rw [if_pos (show jsLt (.num 0) (.num (n : ℚ)) = true by
    simp only [jsLt, decide_eq_true_eq]
    exact_mod_cast (by omega : (0 : ℤ) < n))]
  simp only [jsNumToString, Rat.den_intCast, Rat.num_intCast, if_pos]

theorem formatRelativeTime_neg (n : ℤ) (hn : n ≤ -2) :
    formatRelativeTime (.num (n : ℚ)) = .ok (toString |n| ++ " days ago") := by
  unfold formatRelativeTime
  rw [if_neg (fun h => JSNum.noConfusion h)]
  rw [if_neg (fun h => by
    have := JSNum.num.inj h
    have hn0 : n = 0 := by exact_mod_cast this
    omega)]
  rw [if_neg (fun h => by
    have := JSNum.num.inj h
    have hn1 : n = 1 := by exact_mod_cast this
    omega)]
  rw [if_neg (fun h => by
    have := JSNum.num.inj h
    have hn1 : n = -1 := by exact_mod_cast this
    omega)]
  rw [if_neg (show ¬ jsLt (.num 0) (.num (n : ℚ)) = true by
    simp only [jsLt, decide_eq_true_eq, not_lt]
    exact_mod_cast (by omega : n ≤ (0 : ℤ)))]
  have habs : jsAbs (.num (n : ℚ)) = .num ((|n| : ℤ) : ℚ) := by
    simp only [jsAbs, Int.cast_abs]
  rw [habs]
  simp only [jsNumToString, Rat.den_intCast, Rat.num_intCast, if_pos]

/-- C9 counterexample: `Infinity` is not a finite number, yet
`formatRelativeTime(Infinity)` does not fail — the guard only checks
`isNaN`, and `Infinity > 0`, so it returns `"In Infinity days"`. -/
theorem claim_C9_counterexample :
    formatRelativeTime .inf = .ok "In Infinity days" ∧
      formatRelativeTime .inf ≠ .error .invalidInput := by
  refine ⟨by decide, ?_⟩
  intro h
  rw [show formatRelativeTime .inf = .ok "In Infinity days" by decide] at h
  exact Except.noConfusion h

/-- C9 (amended): `formatRelativeTime` returns `"Today"` for 0, `"Tomorrow"`
for 1, `"Yesterday"` for −1, `"In {n} days"` for every other positive
integer n, `"{|n|} days ago"` for every other negative integer n, and fails
with `InvalidInput` only when `days` is NaN — an infinite argument is not
rejected but formatted (`"In Infinity days"`). -/
theorem claim_C9_amended :
    formatRelativeTime (.num 0) = .ok "Today" ∧
    formatRelativeTime (.num 1) = .ok "Tomorrow" ∧
    formatRelativeTime (.num (-1)) = .ok "Yesterday" ∧
    formatRelativeTime (.num 5) = .ok "In 5 days" ∧
    formatRelativeTime (.num (-3)) = .ok "3 days ago" ∧
    (∀ n : ℤ, 2 ≤ n →
      formatRelativeTime (.num (n : ℚ)) = .ok ("In " ++ toString n ++ " days")) ∧
    (∀ n : ℤ, n ≤ -2 →
      formatRelativeTime (.num (n : ℚ)) = .ok (toString |n| ++ " days ago")) ∧
    formatRelativeTime .nan = .error .invalidInput ∧
    formatRelativeTime .inf = .ok "In Infinity days" := by
  refine ⟨by decide, by decide, by decide, by decide, by decide,
    formatRelativeTime_pos, formatRelativeTime_neg, by decide, by decide⟩

/-- Witness for the amended C9 at `n = 7`. -/
theorem claim_C9_witness :
    (2 : ℤ) ≤ 7 ∧
      formatRelativeTime (.num ((7 : ℤ) : ℚ)) = .ok ("In " ++ toString (7 : ℤ) ++ " days") :=
  ⟨by norm_num, (claim_C9_amended.2.2.2.2.2.1) 7 (by norm_num)⟩

end MoonPhases
